import Mathlib

/-!
Verification of AmericanOptionCommodities.py (Barone-Adesi--Whaley quadratic
approximation of American commodity option prices) against its specification.

The numeric code is embedded over the real numbers: numpy scalar arithmetic
becomes real arithmetic, np.exp / np.log / np.sqrt become Real.exp / Real.log /
Real.sqrt, and scipy.stats.norm.cdf / .pdf become the standard normal
cumulative distribution and density defined below by a Lebesgue integral.
Division by zero in the reals is total (x / 0 = 0); every place where the
Python program would instead raise or produce a non-finite float is modelled
explicitly with Option, as documented at each definition.
-/

open MeasureTheory Set

noncomputable section

/-- Standard normal density, the embedding of scipy.stats.norm.pdf. -/
def normPdf (x : ℝ) : ℝ := Real.exp (-(x ^ 2) / 2) / Real.sqrt (2 * Real.pi)

/-- Standard normal cumulative distribution, the embedding of
scipy.stats.norm.cdf. -/
def normCdf (x : ℝ) : ℝ := ∫ t in Iic x, normPdf t

lemma normPdf_pos (x : ℝ) : 0 < normPdf x :=
  div_pos (Real.exp_pos _) (Real.sqrt_pos.mpr (by positivity))

lemma normPdf_eq (x : ℝ) :
    normPdf x = Real.exp (-(2⁻¹ : ℝ) * x ^ 2) / Real.sqrt (2 * Real.pi) := by
  unfold normPdf
  congr 1
  congr 1
  ring

lemma integrable_normPdf : Integrable normPdf := by
  have h : Integrable (fun x : ℝ => Real.exp (-(2⁻¹ : ℝ) * x ^ 2)) :=
    integrable_exp_neg_mul_sq (by norm_num)
  have heq : normPdf = fun x : ℝ =>
      Real.exp (-(2⁻¹ : ℝ) * x ^ 2) / Real.sqrt (2 * Real.pi) :=
    funext normPdf_eq
  rw [heq]
  exact h.div_const _

lemma integral_normPdf : ∫ x, normPdf x = 1 := by
  have h1 : ∫ x, normPdf x
      = (∫ x : ℝ, Real.exp (-(2⁻¹ : ℝ) * x ^ 2)) / Real.sqrt (2 * Real.pi) := by
    rw [← integral_div]
    exact integral_congr_ae (Filter.Eventually.of_forall normPdf_eq)
  rw [h1, integral_gaussian]
  have h2 : Real.pi / (2⁻¹ : ℝ) = 2 * Real.pi := by ring
  rw [h2]
  exact div_self (ne_of_gt (Real.sqrt_pos.mpr (by positivity)))

lemma normCdf_add_Ioi (x : ℝ) : normCdf x + ∫ t in Ioi x, normPdf t = 1 := by
  have h := integral_add_compl (measurableSet_Iic (a := x)) integrable_normPdf
  rw [compl_Iic] at h
  rw [normCdf, h, integral_normPdf]

lemma integral_Ioi_normPdf_pos (x : ℝ) : 0 < ∫ t in Ioi x, normPdf t := by
  rw [setIntegral_pos_iff_support_of_nonneg_ae
    (Filter.Eventually.of_forall fun t => (normPdf_pos t).le)
    integrable_normPdf.integrableOn]
  have hs : Function.support normPdf = univ := by
    ext t
    simp [Function.mem_support, (normPdf_pos t).ne']
  rw [hs, univ_inter, Real.volume_Ioi]
  exact ENNReal.zero_lt_top

lemma normCdf_lt_one (x : ℝ) : normCdf x < 1 := by
  have h := normCdf_add_Ioi x
  have h2 := integral_Ioi_normPdf_pos x
  linarith

lemma normCdf_le_one (x : ℝ) : normCdf x ≤ 1 := (normCdf_lt_one x).le

lemma normCdf_neg (x : ℝ) : normCdf (-x) = ∫ t in Ioi x, normPdf t := by
  have heven : ∀ t : ℝ, normPdf (-t) = normPdf t := by
    intro t
    unfold normPdf
    rw [neg_sq]
  have h1 : normCdf (-x) = ∫ t in Iic (-x), normPdf (-t) := by
    rw [normCdf]
    exact integral_congr_ae (Filter.Eventually.of_forall fun t => (heven t).symm)
  rw [h1, integral_comp_neg_Iic, neg_neg]

lemma normCdf_add_neg (x : ℝ) : normCdf x + normCdf (-x) = 1 := by
  rw [normCdf_neg]
  exact normCdf_add_Ioi x

lemma normCdf_zero : normCdf 0 = 1 / 2 := by
  have h := normCdf_add_neg 0
  rw [neg_zero] at h
  linarith

lemma normCdf_mono {x y : ℝ} (h : x ≤ y) : normCdf x ≤ normCdf y :=
  setIntegral_mono_set integrable_normPdf.integrableOn
    (Filter.Eventually.of_forall fun t => (normPdf_pos t).le)
    (HasSubset.Subset.eventuallyLE (Iic_subset_Iic.mpr h))

/-- Python round(x, 2): the value scaled by 100, rounded to the nearest
integer, and scaled back.  (Python rounds decimal ties to even; the embedded
round rounds ties up.  No theorem below evaluates round2 at a tie.) -/
def round2 (x : ℝ) : ℝ := (round (100 * x) : ℤ) / 100

/-- The pair of roots np.roots produces for the monic real quadratic
q^2 + b q + c, returned in the source order [q_1, q_2].  np.roots computes the
eigenvalues of the companion matrix [[-b, -c], [1, 0]] through LAPACK, whose
2x2 standardization (dlanv2) uses the cancellation-stable form
z = p + sign(p) * sqrt(p^2 + bc) with p = -b/2, so the larger-magnitude
eigenvalue comes first (sign(0) is taken positive, so for b = 0 the positive
root comes first).  The source destructures np.roots as [q_2, q_1] and returns
[q_1, q_2]: hence the second component below is the larger-magnitude root
(-b + sg*sqrt(disc))/2 with sg = sign(-b), and the first is the other root.
When the discriminant is negative np.roots silently returns the complex
conjugate pair (positive imaginary part first, so q_2 carries the positive
imaginary part), embedded in the second branch. -/
def quadPair (b c : ℝ) : ℂ × ℂ :=
  if 0 ≤ b ^ 2 - 4 * c then
    (((-b - (if b ≤ 0 then (1:ℝ) else -1) * Real.sqrt (b ^ 2 - 4 * c)) / 2 : ℝ),
     ((-b + (if b ≤ 0 then (1:ℝ) else -1) * Real.sqrt (b ^ 2 - 4 * c)) / 2 : ℝ))
  else
    (⟨-b / 2, -(Real.sqrt (4 * c - b ^ 2) / 2)⟩, ⟨-b / 2, Real.sqrt (4 * c - b ^ 2) / 2⟩)

/-- Embedding of roots(db, dr, dT, ds) (source lines 18-33): the roots of
equation (13), q^2 + (N - 1) q - M/K = 0 with N = 2 b / sigma^2,
M = 2 r / sigma^2, K = 1 - exp(-r T).  When ds = 0 the coefficient divisions
overflow to non-finite floats, and when dK = 0 the division -dM/dK is a float
division by zero producing NaN or infinity; in both cases np.roots raises on
the non-finite coefficient, modelled as none. -/
def roots (db dr dT ds : ℝ) : Option (ℂ × ℂ) :=
  let dN := 2 * db / ds ^ 2
  let dM := 2 * dr / ds ^ 2
  let dK := 1 - Real.exp (-(dr * dT))
  if ds = 0 then none
  else if dK = 0 then none
  else some (quadPair (dN - 1) (-dM / dK))

/-- Embedding of the seeding call roots(db, dr, np.inf, ds) on source line 194:
the scenario loop passes the literal floating-point infinity np.inf as the
maturity.  NumPy evaluates np.exp(-dr * np.inf) by IEEE rules: 0 when dr > 0
(so dK = 1), +infinity when dr < 0 (so dK = -infinity and the finite
numerator -dM collapses the constant coefficient -dM/dK to a signed zero), and
NaN when dr = 0 (0 * infinity), on which np.roots raises -- modelled as none,
as is the non-finite-coefficient case ds = 0.  In the dr < 0 branch np.roots
strips the trailing zero coefficient, solves q + (N - 1) = 0 for the nonzero
root 1 - N, and appends the stripped zero root last, so it returns [1 - N, 0]
and the destructured source value is (q_1, q_2) = (0, 1 - N). -/
def roots_inf_call (db dr ds : ℝ) : Option (ℂ × ℂ) :=
  if ds = 0 then none
  else if 0 < dr then some (quadPair (2 * db / ds ^ 2 - 1) (-(2 * dr / ds ^ 2)))
  else if dr < 0 then some (((0 : ℝ) : ℂ), ((1 - 2 * db / ds ^ 2 : ℝ) : ℂ))
  else none

/-- Modelled from the spec: the infinite-maturity root computation as sections
4.1 and 9 prescribe it, a separate closed-form path substituting K = 1
analytically, with no literal infinity fed to the exponential.  With K = 1 the
constant coefficient is -M = -(2 r / sigma^2). -/
def roots_inf_spec (db dr ds : ℝ) : Option (ℂ × ℂ) :=
  if ds = 0 then none
  else some (quadPair (2 * db / ds ^ 2 - 1) (-(2 * dr / ds ^ 2)))

/-- Embedding of SeedPrices (source lines 37-56): the asymptotic critical
prices, equations (30) and (32), and the seed estimates, equations (31) and
(33), returned as (dCall_seed, dPut_seed). -/
def SeedPrices (lq_inf : ℝ × ℝ) (db dT ds iX : ℝ) : ℝ × ℝ :=
  let q_1 := lq_inf.1
  let q_2 := lq_inf.2
  let dCall_S_inf := iX / (1 - 1 / q_2)
  let dPut_S_inf := iX / (1 - 1 / q_1)
  let dh_1 := (db * dT - 2 * ds * Real.sqrt dT) * (iX / (iX - dPut_S_inf))
  let dh_2 := -(db * dT + 2 * ds * Real.sqrt dT) * (iX / (dCall_S_inf - iX))
  (iX + (dCall_S_inf - iX) * (1 - Real.exp dh_2),
   dPut_S_inf + (iX - dPut_S_inf) * Real.exp dh_1)

/-- The d_1 expression shared by both solvers and both pricers. -/
def d1At (S iX db ds dT : ℝ) : ℝ :=
  (Real.log (S / iX) + (db + 0.5 * ds ^ 2) * dT) / (ds * Real.sqrt dT)

/-- European call value at S, equation (5) as written in the source. -/
def euCall (S iX db ds dT dr : ℝ) : ℝ :=
  S * Real.exp ((db - dr) * dT) * normCdf (d1At S iX db ds dT)
    - iX * Real.exp (-(dr * dT)) * normCdf (d1At S iX db ds dT - ds * Real.sqrt dT)

/-- European put value at S, equation (6) as written in the source. -/
def euPut (S iX db ds dT dr : ℝ) : ℝ :=
  iX * Real.exp (-(dr * dT)) * normCdf (-(d1At S iX db ds dT - ds * Real.sqrt dT))
    - S * Real.exp ((db - dr) * dT) * normCdf (-(d1At S iX db ds dT))

/-- The per-iteration slope term b_i of Critical_Call_Price (source lines
88-89), transcribed with the same operator precedence: the source text
pdf(d_1)/ds*sqrt(dT) parses as (pdf(d_1)/ds)*sqrt(dT) in Python, and the Lean
expression below parses identically. -/
def slopeCall (d1 dq_2 db ds dT dr : ℝ) : ℝ :=
  Real.exp ((db - dr) * dT) * normCdf d1 * (1 - 1 / dq_2)
    + (1 - Real.exp ((db - dr) * dT) * normPdf d1 / ds * Real.sqrt dT) / dq_2

/-- The per-iteration slope term b_i of Critical_Put_Price (source lines
122-123), with the same operator precedence as the source. -/
def slopePut (d1 dq_1 db ds dT dr : ℝ) : ℝ :=
  Real.exp ((db - dr) * dT) * normCdf (-d1) * (1 - 1 / dq_1)
    + (1 - Real.exp ((db - dr) * dT) * normPdf (-d1) / ds * Real.sqrt dT) / dq_1

/-- Modelled from the spec: the call slope with the analytic closed-form
derivative factor pdf(d_1)/(sigma*sqrt(T)) that section 9 identifies as the
intended target formula. -/
def slopeCallPaper (d1 dq_2 db ds dT dr : ℝ) : ℝ :=
  Real.exp ((db - dr) * dT) * normCdf d1 * (1 - 1 / dq_2)
    + (1 - Real.exp ((db - dr) * dT) * (normPdf d1 / (ds * Real.sqrt dT))) / dq_2

/-- Modelled from the spec: the put slope with the analytic closed-form
derivative factor. -/
def slopePutPaper (d1 dq_1 db ds dT dr : ℝ) : ℝ :=
  Real.exp ((db - dr) * dT) * normCdf (-d1) * (1 - 1 / dq_1)
    + (1 - Real.exp ((db - dr) * dT) * (normPdf (-d1) / (ds * Real.sqrt dT))) / dq_1

/-- RHS of the call boundary condition, equation (26b) in the source. -/
def critCallRHS (dq_2 iX db ds dT dr S : ℝ) : ℝ :=
  euCall S iX db ds dT dr
    + (1 - Real.exp ((db - dr) * dT) * normCdf (d1At S iX db ds dT)) * S / dq_2

/-- The relative boundary-condition error computed in each call-solver
iteration: abs(dLHS - dRHS)/iX with dLHS = S - iX. -/
def critCallErr (dq_2 iX db ds dT dr S : ℝ) : ℝ :=
  |S - iX - critCallRHS dq_2 iX db ds dT dr S| / iX

/-- The next call iterate, equation (28) in the source. -/
def critCallNext (dq_2 iX db ds dT dr S : ℝ) : ℝ :=
  (iX + critCallRHS dq_2 iX db ds dT dr S
      - slopeCall (d1At S iX db ds dT) dq_2 db ds dT dr * S)
    / (1 - slopeCall (d1At S iX db ds dT) dq_2 db ds dT dr)

/-- The while loop of Critical_Call_Price (source lines 67-94) with an explicit
iteration budget: the source loop has no cap, so exhausted fuel (none) means
the loop is still running.  Each pass computes the error at the current price
and then unconditionally replaces the price; the loop re-tests the stored
error at the top, so it exits -- returning the already-updated price -- as
soon as the error measured at the pre-update price is at most 0.00001. -/
def critCallLoop (dq_2 iX db ds dT dr : ℝ) : ℕ → ℝ → Option ℝ
  | 0, _ => none
  | n + 1, S =>
    if 0.00001 < critCallErr dq_2 iX db ds dT dr S then
      critCallLoop dq_2 iX db ds dT dr n (critCallNext dq_2 iX db ds dT dr S)
    else some (critCallNext dq_2 iX db ds dT dr S)

/-- k-fold application of the call update map, for speaking about the iterate
sequence of the source loop. -/
def critCallIter (dq_2 iX db ds dT dr : ℝ) : ℕ → ℝ → ℝ
  | 0, S => S
  | n + 1, S => critCallIter dq_2 iX db ds dT dr n (critCallNext dq_2 iX db ds dT dr S)

/-- RHS of the put boundary condition (source line 115). -/
def critPutRHS (dq_1 iX db ds dT dr S : ℝ) : ℝ :=
  euPut S iX db ds dT dr
    - (1 - Real.exp ((db - dr) * dT) * normCdf (-(d1At S iX db ds dT))) * S / dq_1

/-- The relative boundary-condition error of the put solver:
abs(dLHS - dRHS)/iX with dLHS = iX - S. -/
def critPutErr (dq_1 iX db ds dT dr S : ℝ) : ℝ :=
  |iX - S - critPutRHS dq_1 iX db ds dT dr S| / iX

/-- The next put iterate (source line 125). -/
def critPutNext (dq_1 iX db ds dT dr S : ℝ) : ℝ :=
  (iX + slopePut (d1At S iX db ds dT) dq_1 db ds dT dr * S
      - critPutRHS dq_1 iX db ds dT dr S)
    / (1 + slopePut (d1At S iX db ds dT) dq_1 db ds dT dr)

/-- The while loop of Critical_Put_Price (source lines 105-127), mirror of
critCallLoop. -/
def critPutLoop (dq_1 iX db ds dT dr : ℝ) : ℕ → ℝ → Option ℝ
  | 0, _ => none
  | n + 1, S =>
    if 0.00001 < critPutErr dq_1 iX db ds dT dr S then
      critPutLoop dq_1 iX db ds dT dr n (critPutNext dq_1 iX db ds dT dr S)
    else some (critPutNext dq_1 iX db ds dT dr S)

/-- k-fold application of the put update map. -/
def critPutIter (dq_1 iX db ds dT dr : ℝ) : ℕ → ℝ → ℝ
  | 0, S => S
  | n + 1, S => critPutIter dq_1 iX db ds dT dr n (critPutNext dq_1 iX db ds dT dr S)

/-- Critical_Call_Price (source lines 60-94): iterates from the call seed,
using q_2 from the finite-maturity root pair.  The fuel argument makes the
unbounded source loop a total function. -/
def Critical_Call_Price (fuel : ℕ) (lSeedPrices lq : ℝ × ℝ) (iX db ds dT dr : ℝ) :
    Option ℝ :=
  critCallLoop lq.2 iX db ds dT dr fuel lSeedPrices.1

/-- Critical_Put_Price (source lines 98-127): iterates from the put seed,
using q_1 from the finite-maturity root pair. -/
def Critical_Put_Price (fuel : ℕ) (lSeedPrices lq : ℝ × ℝ) (iX db ds dT dr : ℝ) :
    Option ℝ :=
  critPutLoop lq.1 iX db ds dT dr fuel lSeedPrices.2

/-- American_Put (source lines 131-152).  The two guards dS > dCrit_Put and
dS <= dCrit_Put cover every case, so the result is total; the pair is
(dEU_Put, dAme_Put) as returned by the source. -/
def American_Put (dS : ℝ) (lq : ℝ × ℝ) (dCrit_Put iX db ds dT dr : ℝ) : ℝ × ℝ :=
  let dq_1 := lq.1
  let d_1 := d1At dCrit_Put iX db ds dT
  let dA_1 := -(dCrit_Put / dq_1) * (1 - Real.exp ((db - dr) * dT) * normCdf (-d_1))
  let dEU_Put := euPut dS iX db ds dT dr
  (dEU_Put,
    if dCrit_Put < dS then dEU_Put + dA_1 * (dS / dCrit_Put) ^ dq_1 else iX - dS)

/-- American_Call (source lines 156-177).  Both branch guards are strict
(dS < dCrit_Call and dS > dCrit_Call), so at dS = dCrit_Call neither branch
assigns dAme_Call and the Python function raises UnboundLocalError at its
return statement; the third component is none exactly there.  The triple is
(dS, dEU_Call, dAme_Call) as returned by the source. -/
def American_Call (dS : ℝ) (lq : ℝ × ℝ) (dCrit_Call iX db ds dT dr : ℝ) :
    ℝ × ℝ × Option ℝ :=
  let dq_2 := lq.2
  let d_1 := d1At dCrit_Call iX db ds dT
  let dA_2 := (dCrit_Call / dq_2) * (1 - Real.exp ((db - dr) * dT) * normCdf d_1)
  let dEU_Call := euCall dS iX db ds dT dr
  (dS, euCall dS iX db ds dT dr,
    if dS < dCrit_Call then some (dEU_Call + dA_2 * (dS / dCrit_Call) ^ dq_2)
    else if dCrit_Call < dS then some (dS - iX) else none)

/-- A numpy scalar used as a real number: defined when its imaginary part is
zero.  The scenario runner below is modelled only on executions where the root
pairs are real; on complex roots numpy would propagate complex values
silently. -/
def toRealIfReal (z : ℂ) : Option ℝ := if z.im = 0 then some z.re else none

/-- One pass of the scenario loop body of Ame_Option_Price (source lines
189-204): the infinite-maturity roots (literal np.inf), the seed prices, the
finite-maturity roots, both critical prices -- each computed once for the
scenario -- and then one (call, put) row pair per spot price, sharing those
critical prices.  The scenario is the triple (dT, dr, ds); none models a
raised exception or an exhausted solver budget. -/
def scenarioBlock (fuel : ℕ) (db iX : ℝ) (vS : List ℝ) (sc : ℝ × ℝ × ℝ) :
    Option (List (ℝ × ℝ × Option ℝ) × List (ℝ × ℝ)) :=
  (roots_inf_call db sc.2.1 sc.2.2).bind fun lq_inf =>
  (toRealIfReal lq_inf.1).bind fun qi1 =>
  (toRealIfReal lq_inf.2).bind fun qi2 =>
  (roots db sc.2.1 sc.1 sc.2.2).bind fun lqc =>
  (toRealIfReal lqc.1).bind fun q1 =>
  (toRealIfReal lqc.2).bind fun q2 =>
  (Critical_Call_Price fuel (SeedPrices (qi1, qi2) db sc.1 sc.2.2 iX) (q1, q2)
      iX db sc.2.2 sc.1 sc.2.1).bind fun dCrit_Call =>
  (Critical_Put_Price fuel (SeedPrices (qi1, qi2) db sc.1 sc.2.2 iX) (q1, q2)
      iX db sc.2.2 sc.1 sc.2.1).bind fun dCrit_Put =>
  some (vS.map fun dS => American_Call dS (q1, q2) dCrit_Call iX db sc.2.2 sc.1 sc.2.1,
        vS.map fun dS => American_Put dS (q1, q2) dCrit_Put iX db sc.2.2 sc.1 sc.2.1)

/-- The accumulation of rows over the scenario list (the outer loop of source
lines 189-204): call rows and put rows are appended scenario by scenario. -/
def gatherRows (fuel : ℕ) (db iX : ℝ) (vS : List ℝ) :
    List (ℝ × ℝ × ℝ) → Option (List (ℝ × ℝ × Option ℝ) × List (ℝ × ℝ))
  | [] => some ([], [])
  | sc :: rest =>
    match scenarioBlock fuel db iX vS sc, gatherRows fuel db iX vS rest with
    | some p, some q => some (p.1 ++ q.1, p.2 ++ q.2)
    | _, _ => none

/-- The transposition, column extraction and rounding of source lines 206-221:
the returned columns are [lS, lEU_Call, lAme_Call, lEU_Put, lAme_Put]; the
four price columns are rounded to 2 decimals, while the spot column lS is
returned exactly as collected. -/
def assembleColumns (rows : List (ℝ × ℝ × Option ℝ) × List (ℝ × ℝ)) :
    List ℝ × List ℝ × List (Option ℝ) × List ℝ × List ℝ :=
  ((rows.1.map fun r => r.1),
   (rows.1.map fun r => round2 r.2.1),
   (rows.1.map fun r => Option.map round2 r.2.2),
   (rows.2.map fun r => round2 r.1),
   (rows.2.map fun r => round2 r.2))

/-- Ame_Option_Price (source lines 181-221), over a list of (dT, dr, ds)
scenario triples (main builds the three equal-length parameter arrays). -/
def Ame_Option_Price (fuel : ℕ) (scens : List (ℝ × ℝ × ℝ)) (db iX : ℝ)
    (vS : List ℝ) :
    Option (List ℝ × List ℝ × List (Option ℝ) × List ℝ × List ℝ) :=
  Option.map assembleColumns (gatherRows fuel db iX vS scens)

/-! ## Helper lemmas about the quadratic roots -/

lemma quadPair_of_nonneg {b c : ℝ} (h : 0 ≤ b ^ 2 - 4 * c) :
    quadPair b c
      = ((((-b - (if b ≤ 0 then (1:ℝ) else -1) * Real.sqrt (b ^ 2 - 4 * c)) / 2 : ℝ) : ℂ),
         (((-b + (if b ≤ 0 then (1:ℝ) else -1) * Real.sqrt (b ^ 2 - 4 * c)) / 2 : ℝ) : ℂ)) := by
  rw [quadPair, if_pos h]

lemma quadPair_neg_c {b c : ℝ} (hc : c < 0) :
    ∃ qn qp : ℝ, qn < 0 ∧ 0 < qp ∧ qn < qp ∧
      qn ^ 2 + b * qn + c = 0 ∧ qp ^ 2 + b * qp + c = 0 ∧
      quadPair b c = if b ≤ 0 then ((qn : ℂ), (qp : ℂ)) else ((qp : ℂ), (qn : ℂ)) := by
  have hd : 0 ≤ b ^ 2 - 4 * c := by nlinarith
  have hsq : Real.sqrt (b ^ 2 - 4 * c) ^ 2 = b ^ 2 - 4 * c := Real.sq_sqrt hd
  have habs : |b| < Real.sqrt (b ^ 2 - 4 * c) := by
    rw [← Real.sqrt_sq_eq_abs]
    apply Real.sqrt_lt_sqrt (sq_nonneg b)
    nlinarith
  have hb1 : -b ≤ |b| := by
    have h := le_abs_self (-b)
    rwa [abs_neg] at h
  have hb2 : b ≤ |b| := le_abs_self b
  have hspos : 0 < Real.sqrt (b ^ 2 - 4 * c) := lt_of_le_of_lt (abs_nonneg b) habs
  refine ⟨(-b - Real.sqrt (b ^ 2 - 4 * c)) / 2, (-b + Real.sqrt (b ^ 2 - 4 * c)) / 2,
    by linarith, by linarith, by linarith, by linear_combination hsq / 4,
    by linear_combination hsq / 4, ?_⟩
  rw [quadPair_of_nonneg hd]
  by_cases hb : b ≤ 0
  · simp only [if_pos hb, one_mul]
  · simp only [if_neg hb, Prod.mk.injEq, Complex.ofReal_inj]
    constructor <;> ring

lemma quadPair_real_of_nonneg {b c : ℝ} (h : 0 ≤ b ^ 2 - 4 * c) :
    ∃ x y : ℝ, quadPair b c = ((x : ℂ), (y : ℂ)) := by
  rw [quadPair_of_nonneg h]
  exact ⟨_, _, rfl⟩

lemma MdivK_pos {dr dT ds : ℝ} (hds : ds ≠ 0) (hdr : dr ≠ 0) (hdT : 0 < dT) :
    0 < (2 * dr / ds ^ 2) / (1 - Real.exp (-(dr * dT))) := by
  have hs2 : 0 < ds ^ 2 := by positivity
  rcases lt_or_gt_of_ne hdr with hneg | hpos
  · apply div_pos_of_neg_of_neg
    · exact div_neg_of_neg_of_pos (by linarith) hs2
    · have h1 : 1 < Real.exp (-(dr * dT)) := by
        rw [← Real.exp_zero]
        exact Real.exp_lt_exp.mpr (by nlinarith)
      linarith
  · apply div_pos
    · exact div_pos (by linarith) hs2
    · have h1 : Real.exp (-(dr * dT)) < 1 := by
        rw [← Real.exp_zero]
        exact Real.exp_lt_exp.mpr (by nlinarith)
      linarith

lemma roots_eval_of_valid {db dr dT ds : ℝ} (hds : ds ≠ 0) (hdr : dr ≠ 0)
    (hdT : 0 < dT) :
    roots db dr dT ds
      = some (quadPair (2 * db / ds ^ 2 - 1)
          (-(2 * dr / ds ^ 2) / (1 - Real.exp (-(dr * dT))))) := by
  have hm := MdivK_pos hds hdr hdT
  have hK : ¬(1 - Real.exp (-(dr * dT)) = 0) := by
    intro h0
    rw [h0, div_zero] at hm
    exact lt_irrefl 0 hm
  simp only [roots, if_neg hds, if_neg hK]

lemma roots_valid {db dr dT ds : ℝ} (hds : ds ≠ 0) (hdr : dr ≠ 0) (hdT : 0 < dT) :
    ∃ qn qp : ℝ, qn < 0 ∧ 0 < qp ∧
      qn ^ 2 + (2 * db / ds ^ 2 - 1) * qn
          - (2 * dr / ds ^ 2) / (1 - Real.exp (-(dr * dT))) = 0 ∧
      qp ^ 2 + (2 * db / ds ^ 2 - 1) * qp
          - (2 * dr / ds ^ 2) / (1 - Real.exp (-(dr * dT))) = 0 ∧
      roots db dr dT ds
        = some (if 2 * db / ds ^ 2 - 1 ≤ 0 then ((qn : ℂ), (qp : ℂ))
            else ((qp : ℂ), (qn : ℂ))) := by
  have hm := MdivK_pos hds hdr hdT
  have hc : -(2 * dr / ds ^ 2) / (1 - Real.exp (-(dr * dT))) < 0 := by
    rw [neg_div]
    linarith
  obtain ⟨qn, qp, h1, h2, h3, h4, h5, hpair⟩ :=
    quadPair_neg_c (b := 2 * db / ds ^ 2 - 1) hc
  have hcrw : -(2 * dr / ds ^ 2) / (1 - Real.exp (-(dr * dT)))
      = -((2 * dr / ds ^ 2) / (1 - Real.exp (-(dr * dT)))) := neg_div _ _
  refine ⟨qn, qp, h1, h2, by linarith [h4, hcrw], by linarith [h5, hcrw], ?_⟩
  rw [roots_eval_of_valid hds hdr hdT, hpair]

lemma roots_valid_real {db dr dT ds : ℝ} (hds : ds ≠ 0) (hdr : dr ≠ 0) (hdT : 0 < dT) :
    ∃ x y : ℝ, roots db dr dT ds = some ((x : ℂ), (y : ℂ)) := by
  obtain ⟨qn, qp, -, -, -, -, heq⟩ := roots_valid hds hdr hdT
  by_cases hb : 2 * db / ds ^ 2 - 1 ≤ 0
  · exact ⟨qn, qp, by rw [heq, if_pos hb]⟩
  · exact ⟨qp, qn, by rw [heq, if_neg hb]⟩

/-! ## Helper lemmas about the solver loops -/

lemma critCallLoop_none_of_err {dq_2 iX db ds dT dr : ℝ} :
    ∀ (n : ℕ) (S : ℝ),
      (∀ k, k < n → 0.00001 < critCallErr dq_2 iX db ds dT dr
          (critCallIter dq_2 iX db ds dT dr k S)) →
      critCallLoop dq_2 iX db ds dT dr n S = none := by
  intro n
  induction n with
  | zero => intro S _; rfl
  | succ m ih =>
    intro S h
    have h0 := h 0 (Nat.succ_pos m)
    simp only [critCallIter] at h0
    rw [critCallLoop, if_pos h0]
    apply ih
    intro k hk
    have hs := h (k + 1) (Nat.succ_lt_succ hk)
    simpa only [critCallIter] using hs

lemma critPutLoop_none_of_err {dq_1 iX db ds dT dr : ℝ} :
    ∀ (n : ℕ) (S : ℝ),
      (∀ k, k < n → 0.00001 < critPutErr dq_1 iX db ds dT dr
          (critPutIter dq_1 iX db ds dT dr k S)) →
      critPutLoop dq_1 iX db ds dT dr n S = none := by
  intro n
  induction n with
  | zero => intro S _; rfl
  | succ m ih =>
    intro S h
    have h0 := h 0 (Nat.succ_pos m)
    simp only [critPutIter] at h0
    rw [critPutLoop, if_pos h0]
    apply ih
    intro k hk
    have hs := h (k + 1) (Nat.succ_lt_succ hk)
    simpa only [critPutIter] using hs

lemma critCallLoop_some_inv {dq_2 iX db ds dT dr : ℝ} :
    ∀ (n : ℕ) (S v : ℝ), critCallLoop dq_2 iX db ds dT dr n S = some v →
      ∃ W, critCallErr dq_2 iX db ds dT dr W ≤ 0.00001 ∧
        v = critCallNext dq_2 iX db ds dT dr W := by
  intro n
  induction n with
  | zero => intro S v h; exact absurd h (by rw [critCallLoop]; simp)
  | succ m ih =>
    intro S v h
    rw [critCallLoop] at h
    by_cases hc : 0.00001 < critCallErr dq_2 iX db ds dT dr S
    · rw [if_pos hc] at h
      exact ih _ _ h
    · rw [if_neg hc] at h
      exact ⟨S, le_of_not_lt hc, (Option.some_inj.mp h).symm⟩

lemma critPutLoop_some_inv {dq_1 iX db ds dT dr : ℝ} :
    ∀ (n : ℕ) (S v : ℝ), critPutLoop dq_1 iX db ds dT dr n S = some v →
      ∃ W, critPutErr dq_1 iX db ds dT dr W ≤ 0.00001 ∧
        v = critPutNext dq_1 iX db ds dT dr W := by
  intro n
  induction n with
  | zero => intro S v h; exact absurd h (by rw [critPutLoop]; simp)
  | succ m ih =>
    intro S v h
    rw [critPutLoop] at h
    by_cases hc : 0.00001 < critPutErr dq_1 iX db ds dT dr S
    · rw [if_pos hc] at h
      exact ih _ _ h
    · rw [if_neg hc] at h
      exact ⟨S, le_of_not_lt hc, (Option.some_inj.mp h).symm⟩

lemma critCallErr_nonpos_of_neg_strike {dq_2 iX db ds dT dr S : ℝ} (hX : iX < 0) :
    critCallErr dq_2 iX db ds dT dr S ≤ 0 := by
  rw [critCallErr, div_nonpos_iff]
  left
  exact ⟨abs_nonneg _, hX.le⟩

lemma critPutErr_nonpos_of_neg_strike {dq_1 iX db ds dT dr S : ℝ} (hX : iX < 0) :
    critPutErr dq_1 iX db ds dT dr S ≤ 0 := by
  rw [critPutErr, div_nonpos_iff]
  left
  exact ⟨abs_nonneg _, hX.le⟩

lemma critCallLoop_one_of_neg_strike {dq_2 iX db ds dT dr S : ℝ} (hX : iX < 0) :
    critCallLoop dq_2 iX db ds dT dr 1 S
      = some (critCallNext dq_2 iX db ds dT dr S) := by
  rw [critCallLoop, if_neg]
  exact not_lt.mpr (le_trans (critCallErr_nonpos_of_neg_strike hX) (by norm_num))

lemma critPutLoop_one_of_neg_strike {dq_1 iX db ds dT dr S : ℝ} (hX : iX < 0) :
    critPutLoop dq_1 iX db ds dT dr 1 S
      = some (critPutNext dq_1 iX db ds dT dr S) := by
  rw [critPutLoop, if_neg]
  exact not_lt.mpr (le_trans (critPutErr_nonpos_of_neg_strike hX) (by norm_num))

/-! ## Claim theorems -/

/-- C10: with riskFreeRate = 0 and any finite maturity, the roots computation
has K = 1 - exp(-(0*T)) = 0, so the constant coefficient -M/K is a division by
zero -- numpy produces a NaN coefficient and np.roots raises on it -- and no
valid root pair is produced for any carry cost or volatility, even though the
interface accepts any real rate. -/
theorem c10_zero_rate_no_roots (db dT ds : ℝ) :
    roots db 0 dT ds = none ∧ 1 - Real.exp (-(0 * dT)) = 0 := by
  constructor
  · by_cases hds : ds = 0 <;> simp [roots, hds]
  · simp

/-- C3: at a spot price exactly equal to the critical price, American_Put does
take the intrinsic-value branch and return X - S, but American_Call does not
return S - X: both of its branch guards are strict, so neither branch assigns
the result and the Python code raises UnboundLocalError (the American price
component is none) -- the pricers do not both return a defined result at the
boundary. -/
theorem c3_boundary_equality (lq : ℝ × ℝ) (crit iX db ds dT dr : ℝ) :
    (American_Put crit lq crit iX db ds dT dr).2 = iX - crit ∧
    (American_Call crit lq crit iX db ds dT dr).2.2 = none := by
  constructor
  · simp [American_Put]
  · simp [American_Call]

/-- C2: the critical-price iteration of the source has no maximum iteration
count and no error result: for both solvers, as long as every measured
relative error exceeds the 1e-5 tolerance, the loop is still running after any
number n of iterations (none here means no value has been produced yet, not an
error value) -- non-convergence is an infinite loop, never a ConvergenceError. -/
theorem c2_no_iteration_cap :
    (∀ dq_2 iX db ds dT dr : ℝ, ∀ n : ℕ, ∀ S : ℝ,
        (∀ k, k < n → 0.00001 < critCallErr dq_2 iX db ds dT dr
            (critCallIter dq_2 iX db ds dT dr k S)) →
        critCallLoop dq_2 iX db ds dT dr n S = none) ∧
    (∀ dq_1 iX db ds dT dr : ℝ, ∀ n : ℕ, ∀ S : ℝ,
        (∀ k, k < n → 0.00001 < critPutErr dq_1 iX db ds dT dr
            (critPutIter dq_1 iX db ds dT dr k S)) →
        critPutLoop dq_1 iX db ds dT dr n S = none) :=
  ⟨fun _ _ _ _ _ _ n S h => critCallLoop_none_of_err n S h,
   fun _ _ _ _ _ _ n S h => critPutLoop_none_of_err n S h⟩

/-- Witness for C2: with strike 1, q2 = 1, carry -1/2, volatility 1, maturity
1, rate 0 and seed price 1, the first measured error is 1 - Phi(-1), at least
1/2 and hence above the tolerance, so after one full iteration the call loop
is still running. -/
theorem c2_no_iteration_cap_witness :
    critCallLoop 1 1 (-(1/2)) 1 1 0 1 1 = none := by
  apply c2_no_iteration_cap.1
  intro k hk
  have hk0 : k = 0 := Nat.lt_one_iff.mp hk
  subst hk0
  have hd1 : d1At 1 1 (-(1/2)) 1 1 = 0 := by
    norm_num [d1At, Real.sqrt_one, Real.log_one]
  have hmono : normCdf (-1) ≤ 1/2 := by
    have h := normCdf_mono (show (-1 : ℝ) ≤ 0 by norm_num)
    rwa [normCdf_zero] at h
  have hle : normCdf (-1) ≤ 1 := normCdf_le_one _
  have herr : critCallErr 1 1 (-(1/2)) 1 1 0 (critCallIter 1 1 (-(1/2)) 1 1 0 0 1)
      = 1 - normCdf (-1) := by
    simp only [critCallIter, critCallErr, critCallRHS, euCall, hd1, Real.sqrt_one]
    rw [abs_of_nonpos (by norm_num [Real.exp_zero]; nlinarith)]
    norm_num [Real.exp_zero]
  rw [herr]
  linarith

/-- C1 (amended): for both solvers, every value the loop returns is the
once-more-updated price computed from an iterate whose measured relative error
is within the 1e-5 tolerance: the loop tests the error at the pre-update price
and, on success, exits returning the post-update price, so the returned value
is not the price at which the tolerance was verified (and is not itself
re-checked). -/
theorem c1_return_is_update_of_tolerant_iterate :
    (∀ dq_2 iX db ds dT dr : ℝ, ∀ n : ℕ, ∀ S v : ℝ,
        critCallLoop dq_2 iX db ds dT dr n S = some v →
        ∃ W, critCallErr dq_2 iX db ds dT dr W ≤ 0.00001 ∧
          v = critCallNext dq_2 iX db ds dT dr W) ∧
    (∀ dq_1 iX db ds dT dr : ℝ, ∀ n : ℕ, ∀ S v : ℝ,
        critPutLoop dq_1 iX db ds dT dr n S = some v →
        ∃ W, critPutErr dq_1 iX db ds dT dr W ≤ 0.00001 ∧
          v = critPutNext dq_1 iX db ds dT dr W) :=
  ⟨fun _ _ _ _ _ _ n S v h => critCallLoop_some_inv n S v h,
   fun _ _ _ _ _ _ n S v h => critPutLoop_some_inv n S v h⟩

/-- Witness for C1: a concrete call-solver run (strike -1, q2 = 1, carry 0,
volatility 1, maturity 1, rate 0, seed -1) that stops in its first iteration,
whose returned value is certified to be the update of a tolerance-satisfying
iterate. -/
theorem c1_witness :
    ∃ W, critCallErr 1 (-1) 0 1 1 0 W ≤ 0.00001 ∧
      critCallNext 1 (-1) 0 1 1 0 (-1) = critCallNext 1 (-1) 0 1 1 0 W :=
  c1_return_is_update_of_tolerant_iterate.1 1 (-1) 0 1 1 0 1 (-1)
    (critCallNext 1 (-1) 0 1 1 0 (-1))
    (critCallLoop_one_of_neg_strike (by norm_num))

/-- C1 counterexample: with q2 = 1, strike -1, carry 0, volatility 1, maturity
1, rate 0 and current critical price -1, the measured relative error is within
the 1e-5 tolerance, so by the claim the loop must stop and return the current
price -1; the source loop does stop, but it returns the once-more-updated
price, which is not -1 -- so the returned value is not the price whose error
was checked. -/
theorem c1_counterexample :
    critCallErr 1 (-1) 0 1 1 0 (-1) ≤ 0.00001 ∧
    critCallLoop 1 (-1) 0 1 1 0 1 (-1) ≠ some (-1) := by
  constructor
  · exact le_trans (critCallErr_nonpos_of_neg_strike (by norm_num)) (by norm_num)
  · rw [critCallLoop_one_of_neg_strike (by norm_num)]
    intro h
    have hnext : critCallNext 1 (-1) 0 1 1 0 (-1) = -1 := Option.some_inj.mp h
    have hd1 : d1At (-1) (-1) 0 1 1 = 1/2 := by
      norm_num [d1At, Real.sqrt_one, Real.log_one]
    have hφ : 0 < normPdf (1/2) := normPdf_pos _
    have hRHS : critCallRHS 1 (-1) 0 1 1 0 (-1) = normCdf (-(1/2)) - 1 := by
      rw [critCallRHS, euCall, hd1]
      norm_num [Real.sqrt_one, Real.exp_zero]
      ring
    have hslope : slopeCall (1/2) 1 0 1 1 0 = 1 - normPdf (1/2) := by
      norm_num [slopeCall, Real.sqrt_one, Real.exp_zero]
    rw [critCallNext, hd1, hRHS, hslope] at hnext
    have hden : (1 : ℝ) - (1 - normPdf (1/2)) = normPdf (1/2) := by ring
    rw [hden, div_eq_iff hφ.ne'] at hnext
    have hlt := normCdf_lt_one (-(1/2))
    nlinarith [hnext]

/-- At carry 10, rate -1, volatility 1 the literal-infinity seeding
computation and the spec closed-form K = 1 path disagree (shared by the C4
theorem and counterexample). -/
lemma roots_inf_disagree : roots_inf_call 10 (-1) 1 ≠ roots_inf_spec 10 (-1) 1 := by
  have h1 : roots_inf_call 10 (-1) 1 = some (((0:ℝ) : ℂ), ((-19:ℝ) : ℂ)) := by
    rw [roots_inf_call, if_neg (by norm_num : ¬(1:ℝ) = 0),
      if_neg (by norm_num : ¬(0:ℝ) < -1), if_pos (by norm_num : (-1:ℝ) < 0)]
    norm_num
  have h2 : roots_inf_spec 10 (-1) 1 = some (quadPair 19 2) := by
    norm_num [roots_inf_spec]
  rw [h1, h2]
  intro h
  have heq := Option.some_inj.mp h
  rw [quadPair_of_nonneg (show (0:ℝ) ≤ 19 ^ 2 - 4 * 2 by norm_num),
    if_neg (by norm_num : ¬(19:ℝ) ≤ 0), Prod.mk.injEq] at heq
  obtain ⟨h1st, -⟩ := heq
  rw [Complex.ofReal_inj] at h1st
  rw [show ((19:ℝ) ^ 2 - 4 * 2) = 353 by norm_num] at h1st
  have h361 : Real.sqrt 361 = 19 := by
    rw [show (361:ℝ) = 19 ^ 2 by norm_num, Real.sqrt_sq (by norm_num : (0:ℝ) ≤ 19)]
  have h353 : Real.sqrt 353 < 19 := by
    have hlt : Real.sqrt 353 < Real.sqrt 361 :=
      Real.sqrt_lt_sqrt (by norm_num) (by norm_num)
    rwa [h361] at hlt
  -- h1st : 0 = (-19 - (-1) * sqrt 353) / 2, i.e. sqrt 353 = 19
  have hs := Real.sqrt_nonneg (353:ℝ)
  nlinarith [h1st]

/-- C4 (amended): the scenario loop seeds by calling roots with a literal
floating-point infinity (np.inf), not through a separate analytic K = 1 path.
Under IEEE evaluation the literal-infinity call happens to agree with the spec
closed form whenever the rate is positive, but it is not that closed form: for
a negative rate the two computations disagree -- carry 10, rate -1, volatility
1 is a concrete point of disagreement -- and for rate 0 the literal-infinity
call produces no roots at all (NaN from 0 times infinity). -/
theorem c4_literal_infinity_seeding :
    (∀ db dr ds : ℝ, ds ≠ 0 → 0 < dr →
        roots_inf_call db dr ds = roots_inf_spec db dr ds) ∧
    (∀ db ds : ℝ, roots_inf_call db 0 ds = none) ∧
    roots_inf_call 10 (-1) 1 ≠ roots_inf_spec 10 (-1) 1 := by
  refine ⟨?_, ?_, roots_inf_disagree⟩
  · intro db dr ds hds hdr
    rw [roots_inf_call, roots_inf_spec, if_neg hds, if_neg hds, if_pos hdr]
  · intro db ds
    by_cases hds : ds = 0 <;> simp [roots_inf_call, hds]

/-- C4 counterexample: at carry 10, rate -1, volatility 1, the seeding call
roots(db, dr, np.inf, ds) of the scenario loop does not compute what the spec
closed-form K = 1 path computes: the IEEE evaluation of 1 - exp(-r * inf) at a
negative rate collapses the constant coefficient to a signed zero, giving root
pair (0, -19) instead of the K = 1 roots of q^2 + 19 q + 2 = 0. -/
theorem c4_counterexample : roots_inf_call 10 (-1) 1 ≠ roots_inf_spec 10 (-1) 1 :=
  roots_inf_disagree

/-- Witness for C4: at carry 0, rate 1, volatility 1 (a positive rate) the
literal-infinity seeding call agrees with the spec closed-form K = 1 path. -/
theorem c4_witness : roots_inf_call 0 1 1 = roots_inf_spec 0 1 1 :=
  c4_literal_infinity_seeding.1 0 1 1 (by norm_num) (by norm_num)

/-- C5: in both solvers the slope term evaluates its pdf factor as
(pdf(d1)/sigma)*sqrt(T) -- equivalently, the analytic factor
pdf(d1)/(sigma*sqrt(T)) scaled by an extra T -- per the source operator
precedence, and whenever T differs from 1 (with sigma > 0, T > 0, q nonzero)
it differs from the closed-form analytic derivative of the cited paper, for
the call and the put variant alike. -/
theorem c5_slope_precedence (d1 dq db ds dT dr : ℝ)
    (hds : 0 < ds) (hdT : 0 < dT) (hT1 : dT ≠ 1) (hq : dq ≠ 0) :
    slopeCall d1 dq db ds dT dr
        = Real.exp ((db - dr) * dT) * normCdf d1 * (1 - 1 / dq)
          + (1 - Real.exp ((db - dr) * dT) * (normPdf d1 / (ds * Real.sqrt dT)) * dT)
            / dq ∧
    slopeCall d1 dq db ds dT dr ≠ slopeCallPaper d1 dq db ds dT dr ∧
    slopePut d1 dq db ds dT dr ≠ slopePutPaper d1 dq db ds dT dr := by
  have hs : 0 < Real.sqrt dT := Real.sqrt_pos.mpr hdT
  have hs2 : Real.sqrt dT ^ 2 = dT := Real.sq_sqrt hdT.le
  have h0 : ∀ y : ℝ, Real.exp ((db - dr) * dT) * y / ds * Real.sqrt dT
      = Real.exp ((db - dr) * dT) * (y / (ds * Real.sqrt dT)) * dT := by
    intro y
    field_simp
    linear_combination (Real.exp ((db - dr) * dT) * y * ds) * hs2
  have hmain : ∀ y Φ : ℝ, Real.exp ((db - dr) * dT) * Φ * (1 - 1 / dq)
        + (1 - Real.exp ((db - dr) * dT) * y / ds * Real.sqrt dT) / dq
      ≠ Real.exp ((db - dr) * dT) * Φ * (1 - 1 / dq)
        + (1 - Real.exp ((db - dr) * dT) * (y / (ds * Real.sqrt dT))) / dq
      ∨ ¬ 0 < y := by
    intro y Φ
    by_cases hy : 0 < y
    · left
      intro hEq
      rw [h0 y] at hEq
      have h1 := add_left_cancel hEq
      have h2 : 1 - Real.exp ((db - dr) * dT) * (y / (ds * Real.sqrt dT)) * dT
          = 1 - Real.exp ((db - dr) * dT) * (y / (ds * Real.sqrt dT)) := by
        have h1q := congrArg (fun x : ℝ => x * dq) h1
        simpa only [div_mul_cancel₀ _ hq] using h1q
      have hB : 0 < Real.exp ((db - dr) * dT) * (y / (ds * Real.sqrt dT)) :=
        mul_pos (Real.exp_pos _) (div_pos hy (by positivity))
      have h3 : Real.exp ((db - dr) * dT) * (y / (ds * Real.sqrt dT)) * (dT - 1) = 0 := by
        linear_combination -h2
      rcases mul_eq_zero.mp h3 with h4 | h4
      · exact hB.ne' h4
      · exact hT1 (by linarith)
    · right; exact hy
  refine ⟨?_, ?_, ?_⟩
  · rw [slopeCall, h0 (normPdf d1)]
  · rw [slopeCall, slopeCallPaper]
    rcases hmain (normPdf d1) (normCdf d1) with h | h
    · exact h
    · exact absurd (normPdf_pos d1) h
  · rw [slopePut, slopePutPaper]
    rcases hmain (normPdf (-d1)) (normCdf (-d1)) with h | h
    · exact h
    · exact absurd (normPdf_pos (-d1)) h

/-- Witness for C5: the slope discrepancy at the concrete point d1 = 0, q = 1,
carry 0, volatility 1, maturity 4, rate 0. -/
theorem c5_witness :
    slopeCall 0 1 0 1 4 0
        = Real.exp ((0 - 0) * 4) * normCdf 0 * (1 - 1 / 1)
          + (1 - Real.exp ((0 - 0) * 4) * (normPdf 0 / (1 * Real.sqrt 4)) * 4) / 1 ∧
    slopeCall 0 1 0 1 4 0 ≠ slopeCallPaper 0 1 0 1 4 0 ∧
    slopePut 0 1 0 1 4 0 ≠ slopePutPaper 0 1 0 1 4 0 :=
  c5_slope_precedence 0 1 0 1 4 0 (by norm_num) (by norm_num) (by norm_num)
    (by norm_num)

/-- Evaluation of roots at carry 1/2, rate 1, maturity -1, volatility 1: the
discriminant is negative and the returned pair is the complex conjugate pair
(shared by the C6 and C7 counterexamples). -/
lemma roots_complex_example :
    roots (1/2) 1 (-1) 1
      = some (⟨0, -(Real.sqrt (8 / (Real.exp 1 - 1)) / 2)⟩,
              ⟨0, Real.sqrt (8 / (Real.exp 1 - 1)) / 2⟩)
    ∧ 0 < Real.sqrt (8 / (Real.exp 1 - 1)) / 2 := by
  have he : (1:ℝ) < Real.exp 1 := by linarith [Real.exp_one_gt_d9]
  have hy : 0 < Real.sqrt (8 / (Real.exp 1 - 1)) / 2 := by
    have h8 : (0:ℝ) < 8 / (Real.exp 1 - 1) := by
      apply div_pos <;> linarith
    positivity
  refine ⟨?_, hy⟩
  have hK : ¬((1:ℝ) - Real.exp (-(1 * (-1))) = 0) := by
    intro h
    rw [show (-(1 * (-1)) : ℝ) = 1 by norm_num] at h
    linarith
  simp only [roots]
  rw [if_neg (by norm_num : ¬(1:ℝ) = 0), if_neg hK]
  rw [show (-(1 * (-1)) : ℝ) = 1 by norm_num]
  rw [show (2 * (1/2) / (1:ℝ) ^ 2 - 1) = 0 by norm_num]
  rw [show (-(2 * 1 / (1:ℝ) ^ 2) / (1 - Real.exp 1)) = -(2 / (1 - Real.exp 1)) by
    rw [show (-(2 * 1 / (1:ℝ) ^ 2)) = -2 by norm_num, neg_div]]
  rw [quadPair]
  have hd8 : ((0:ℝ) ^ 2 - 4 * -(2 / (1 - Real.exp 1))) = 8 / (1 - Real.exp 1) := by
    ring
  have hdneg : ((0:ℝ) ^ 2 - 4 * -(2 / (1 - Real.exp 1))) < 0 := by
    rw [hd8]
    exact div_neg_of_pos_of_neg (by norm_num) (by linarith)
  rw [if_neg (not_le.mpr hdneg)]
  have hne : (1:ℝ) - Real.exp 1 ≠ 0 := by linarith
  have hne2 : Real.exp 1 - (1:ℝ) ≠ 0 := by linarith
  have h48 : (4 * -(2 / (1 - Real.exp 1)) - (0:ℝ) ^ 2) = 8 / (Real.exp 1 - 1) := by
    field_simp
    ring
  rw [h48]
  norm_num [Prod.mk.injEq, Complex.mk.injEq]

/-- C6 (amended): the roots computation performs no discriminant check and has
no DomainError path; on the valid domain (nonzero rate, positive maturity,
nonzero volatility) the discriminant is positive and the returned pair is
real, but on a negative discriminant roots silently returns complex values
(see the counterexample). -/
theorem c6_valid_domain_real_roots (db dr dT ds : ℝ)
    (hds : ds ≠ 0) (hdr : dr ≠ 0) (hdT : 0 < dT) :
    ∃ p : ℂ × ℂ, roots db dr dT ds = some p ∧ p.1.im = 0 ∧ p.2.im = 0 := by
  obtain ⟨x, y, heq⟩ := roots_valid_real hds hdr hdT
  exact ⟨((x : ℂ), (y : ℂ)), heq, Complex.ofReal_im x, Complex.ofReal_im y⟩

/-- Witness for C6: the real root pair at carry 0, rate 1, maturity 1,
volatility 1. -/
theorem c6_witness :
    ∃ p : ℂ × ℂ, roots 0 1 1 1 = some p ∧ p.1.im = 0 ∧ p.2.im = 0 :=
  c6_valid_domain_real_roots 0 1 1 1 (by norm_num) (by norm_num) (by norm_num)

/-- C6 counterexample: at carry 1/2, rate 1, maturity -1, volatility 1 the
discriminant of the characteristic quadratic is negative and roots silently
returns a root pair with nonzero imaginary part -- complex root values, not a
DomainError. -/
theorem c6_counterexample :
    ∃ p : ℂ × ℂ, roots (1/2) 1 (-1) 1 = some p ∧ p.2.im ≠ 0 := by
  obtain ⟨heq, hy⟩ := roots_complex_example
  refine ⟨_, heq, ?_⟩
  simpa using hy.ne'

/-- C7 (amended): for sigma > 0 together with a nonzero rate and a positive
maturity (the scenario domain), roots returns a real pair consisting of the
negative root and the positive root of q^2 + (N-1)q - M/K = 0, where
N = 2b/sigma^2, M = 2r/sigma^2, K = 1 - exp(-r T) -- but in the order np.roots
imposes: q_2 is the larger-magnitude root, so the pair is (negative, positive)
exactly when N <= 1, and (positive, negative) when N > 1.  Neither sigma > 0
alone nor the full scenario domain makes the order (q1 negative, q2 positive)
in general (see the counterexample at N = 2). -/
theorem c7_roots_ordered (db dr dT ds : ℝ)
    (hds : 0 < ds) (hdr : dr ≠ 0) (hdT : 0 < dT) :
    ∃ qn qp : ℝ, qn < 0 ∧ 0 < qp ∧
      qn ^ 2 + (2 * db / ds ^ 2 - 1) * qn
          - (2 * dr / ds ^ 2) / (1 - Real.exp (-(dr * dT))) = 0 ∧
      qp ^ 2 + (2 * db / ds ^ 2 - 1) * qp
          - (2 * dr / ds ^ 2) / (1 - Real.exp (-(dr * dT))) = 0 ∧
      roots db dr dT ds
        = some (if 2 * db / ds ^ 2 ≤ 1 then ((qn : ℂ), (qp : ℂ))
            else ((qp : ℂ), (qn : ℂ))) := by
  obtain ⟨qn, qp, h1, h2, h3, h4, heq⟩ := roots_valid hds.ne' hdr hdT
  refine ⟨qn, qp, h1, h2, h3, h4, ?_⟩
  rw [heq]
  simp only [sub_nonpos]

/-- Witness for C7: the root pair at carry 0, rate 1, maturity 1, volatility 1
(here N = 0 <= 1, so the returned order is (negative, positive)). -/
theorem c7_witness :
    ∃ qn qp : ℝ, qn < 0 ∧ 0 < qp ∧
      qn ^ 2 + (2 * 0 / 1 ^ 2 - 1) * qn
          - (2 * 1 / 1 ^ 2) / (1 - Real.exp (-(1 * 1))) = 0 ∧
      qp ^ 2 + (2 * 0 / 1 ^ 2 - 1) * qp
          - (2 * 1 / 1 ^ 2) / (1 - Real.exp (-(1 * 1))) = 0 ∧
      roots 0 1 1 1
        = some (if (2 * 0 / 1 ^ 2 : ℝ) ≤ 1 then ((qn : ℂ), (qp : ℂ))
            else ((qp : ℂ), (qn : ℂ))) :=
  c7_roots_ordered 0 1 1 1 (by norm_num) (by norm_num) (by norm_num)

/-- C7 counterexample: at carry 1, rate 1, maturity 1, volatility 1 -- an input
with sigma > 0 (indeed a valid scenario) but N = 2 > 1 -- np.roots returns the
larger-magnitude, negative root first, so the source value (q_1, q_2) is
(positive, negative): there are no reals q1 < 0 < q2 returned in the claimed
order. -/
theorem c7_counterexample :
    ¬ ∃ q1 q2 : ℝ, roots 1 1 1 1 = some ((q1 : ℂ), (q2 : ℂ)) ∧
      q1 < 0 ∧ 0 < q2 := by
  rintro ⟨q1, q2, heq, hneg, -⟩
  obtain ⟨qn, qp, hqn, hqp, -, -, heval⟩ :=
    @roots_valid 1 1 1 1 (by norm_num) (by norm_num) (by norm_num)
  rw [if_neg (by norm_num : ¬(2 * 1 / (1:ℝ) ^ 2 - 1 ≤ 0))] at heval
  rw [heval] at heq
  have hpair := Option.some_inj.mp heq
  have h1 := congrArg (fun p : ℂ × ℂ => p.1) hpair
  simp only [Complex.ofReal_inj] at h1
  linarith [h1 ▸ hqp]

/-- C9: the European legs computed by the two pricers satisfy put-call parity
exactly in real arithmetic -- and in particular to 1e-6 absolute tolerance --
for every scenario with positive maturity, volatility and spot, independent of
the critical prices and root pair supplied to the American approximation. -/
theorem c9_put_call_parity (dS iX db ds dT dr critC critP : ℝ) (lq : ℝ × ℝ)
    (hdT : 0 < dT) (hds : 0 < ds) (hS : 0 < dS) :
    |(American_Call dS lq critC iX db ds dT dr).2.1
      - (American_Put dS lq critP iX db ds dT dr).1
      - (dS * Real.exp ((db - dr) * dT) - iX * Real.exp (-(dr * dT)))| ≤ 0.000001 := by
  have key : (American_Call dS lq critC iX db ds dT dr).2.1
      - (American_Put dS lq critP iX db ds dT dr).1
      = dS * Real.exp ((db - dr) * dT) - iX * Real.exp (-(dr * dT)) := by
    show euCall dS iX db ds dT dr - euPut dS iX db ds dT dr = _
    rw [euCall, euPut]
    have h1 := normCdf_add_neg (d1At dS iX db ds dT)
    have h2 := normCdf_add_neg (d1At dS iX db ds dT - ds * Real.sqrt dT)
    linear_combination dS * Real.exp ((db - dr) * dT) * h1
      - iX * Real.exp (-(dr * dT)) * h2
  rw [key, sub_self, abs_zero]
  norm_num

/-- Witness for C9: parity at spot 1, strike 1, carry 0, volatility 1,
maturity 1, rate 0, with critical prices 2 and root pair (-1, 2). -/
theorem c9_witness :
    |(American_Call 1 (-1, 2) 2 1 0 1 1 0).2.1
      - (American_Put 1 (-1, 2) 2 1 0 1 1 0).1
      - (1 * Real.exp ((0 - 0) * 1) - 1 * Real.exp (-(0 * 1)))| ≤ 0.000001 :=
  c9_put_call_parity 1 1 0 1 1 0 2 2 (-1, 2) (by norm_num) (by norm_num) (by norm_num)

/-! ## Helper lemmas about the scenario runner -/

lemma toRealIfReal_ofReal (x : ℝ) : toRealIfReal (x : ℂ) = some x := by
  simp [toRealIfReal]

lemma scenarioBlock_some_inv {fuel : ℕ} {db iX : ℝ} {vS : List ℝ} {sc : ℝ × ℝ × ℝ}
    {b : List (ℝ × ℝ × Option ℝ) × List (ℝ × ℝ)}
    (h : scenarioBlock fuel db iX vS sc = some b) :
    ∃ lq : ℝ × ℝ, ∃ cc cp : ℝ,
      b.1 = vS.map (fun dS => American_Call dS lq cc iX db sc.2.2 sc.1 sc.2.1) ∧
      b.2 = vS.map (fun dS => American_Put dS lq cp iX db sc.2.2 sc.1 sc.2.1) := by
  rw [scenarioBlock] at h
  simp only [Option.bind_eq_some] at h
  obtain ⟨lq_inf, -, qi1, -, qi2, -, lqc, -, q1, -, q2, -, cc, -, cp, -, hfin⟩ := h
  have heq := Option.some_inj.mp hfin
  exact ⟨(q1, q2), cc, cp, by rw [← heq], by rw [← heq]⟩

lemma gatherRows_some_inv {fuel : ℕ} {db iX : ℝ} {vS : List ℝ} :
    ∀ (scens : List (ℝ × ℝ × ℝ)) (pr : List (ℝ × ℝ × Option ℝ) × List (ℝ × ℝ)),
      gatherRows fuel db iX vS scens = some pr →
      ∃ blocks : List (List (ℝ × ℝ × Option ℝ) × List (ℝ × ℝ)),
        List.Forall₂ (fun sc b => scenarioBlock fuel db iX vS sc = some b) scens blocks ∧
        pr.1 = (blocks.map Prod.fst).flatten ∧
        pr.2 = (blocks.map Prod.snd).flatten := by
  intro scens
  induction scens with
  | nil =>
    intro pr h
    simp only [gatherRows, Option.some_inj] at h
    exact ⟨[], List.Forall₂.nil, by rw [← h]; rfl, by rw [← h]; rfl⟩
  | cons sc rest ih =>
    intro pr h
    simp only [gatherRows] at h
    cases hsb : scenarioBlock fuel db iX vS sc with
    | none => rw [hsb] at h; simp at h
    | some p =>
      cases hgr : gatherRows fuel db iX vS rest with
      | none => rw [hsb, hgr] at h; simp at h
      | some q =>
        rw [hsb, hgr] at h
        simp only [Option.some_inj] at h
        obtain ⟨blocks, hf, h1, h2⟩ := ih q hgr
        refine ⟨p :: blocks, List.Forall₂.cons hsb hf, ?_, ?_⟩
        · rw [← h]
          simp [h1]
        · rw [← h]
          simp [h2]

lemma blocks_cols {fuel : ℕ} {db iX : ℝ} {vS : List ℝ}
    {scens : List (ℝ × ℝ × ℝ)} {blocks : List (List (ℝ × ℝ × Option ℝ) × List (ℝ × ℝ))}
    (hf : List.Forall₂ (fun sc b => scenarioBlock fuel db iX vS sc = some b) scens blocks) :
    ((blocks.map Prod.fst).flatten.map fun r => r.1) = (scens.map fun _ => vS).flatten ∧
    (blocks.map Prod.fst).flatten.length = scens.length * vS.length ∧
    (blocks.map Prod.snd).flatten.length = scens.length * vS.length := by
  induction hf with
  | nil => simp
  | @cons sc b scs bs hsb hf2 ih =>
    obtain ⟨lq, cc, cp, hb1, hb2⟩ := scenarioBlock_some_inv hsb
    obtain ⟨ih1, ih2, ih3⟩ := ih
    have hcomp : ((fun r : ℝ × ℝ × Option ℝ => r.1)
        ∘ fun dS : ℝ => American_Call dS lq cc iX db sc.2.2 sc.1 sc.2.1)
        = fun dS : ℝ => dS := funext fun dS => rfl
    refine ⟨?_, ?_, ?_⟩
    · rw [List.map_cons, List.flatten_cons, List.map_append, List.map_cons,
        List.flatten_cons, ih1, hb1, List.map_map, hcomp]
      congr 1
      exact List.map_id' vS
    · rw [List.map_cons, List.flatten_cons, List.length_append, ih2, hb1,
        List.length_map, List.length_cons]
      ring
    · rw [List.map_cons, List.flatten_cons, List.length_append, ih3, hb2,
        List.length_map, List.length_cons]
      ring

/-- C8 (amended): whenever a run of the scenario runner completes, its output
is the column view of per-scenario blocks: one block per scenario in input
order, each block holding one row per spot in input spot order (so every
column has length |scenarios| * |spots|), with the root pair and the critical
prices of each block solved once per scenario and shared across all of its
spots; the four price columns are rounded to 2 decimals by assembleColumns,
but the spot column is the unrounded spot list repeated per scenario -- not
rounded as the claim states. -/
theorem c8_runner_structure (fuel : ℕ) (scens : List (ℝ × ℝ × ℝ)) (db iX : ℝ)
    (vS : List ℝ) (hdef : (Ame_Option_Price fuel scens db iX vS).isSome) :
    ∃ blocks : List (List (ℝ × ℝ × Option ℝ) × List (ℝ × ℝ)),
      List.Forall₂ (fun sc b => scenarioBlock fuel db iX vS sc = some b ∧
          ∃ lq cc cp,
            b.1 = vS.map (fun dS => American_Call dS lq cc iX db sc.2.2 sc.1 sc.2.1) ∧
            b.2 = vS.map (fun dS => American_Put dS lq cp iX db sc.2.2 sc.1 sc.2.1))
        scens blocks ∧
      Ame_Option_Price fuel scens db iX vS
        = some (assembleColumns
            ((blocks.map Prod.fst).flatten, (blocks.map Prod.snd).flatten)) ∧
      (assembleColumns ((blocks.map Prod.fst).flatten,
          (blocks.map Prod.snd).flatten)).1 = (scens.map fun _ => vS).flatten ∧
      (assembleColumns ((blocks.map Prod.fst).flatten,
          (blocks.map Prod.snd).flatten)).1.length = scens.length * vS.length ∧
      (assembleColumns ((blocks.map Prod.fst).flatten,
          (blocks.map Prod.snd).flatten)).2.1.length = scens.length * vS.length ∧
      (assembleColumns ((blocks.map Prod.fst).flatten,
          (blocks.map Prod.snd).flatten)).2.2.1.length = scens.length * vS.length ∧
      (assembleColumns ((blocks.map Prod.fst).flatten,
          (blocks.map Prod.snd).flatten)).2.2.2.1.length = scens.length * vS.length ∧
      (assembleColumns ((blocks.map Prod.fst).flatten,
          (blocks.map Prod.snd).flatten)).2.2.2.2.length = scens.length * vS.length := by
  obtain ⟨cols, hcols⟩ := Option.isSome_iff_exists.mp hdef
  rw [Ame_Option_Price] at hcols
  obtain ⟨pr, hpr, -⟩ := Option.map_eq_some'.mp hcols
  obtain ⟨blocks, hf, h1, h2⟩ := gatherRows_some_inv _ _ hpr
  obtain ⟨hc1, hc2, hc3⟩ := blocks_cols hf
  have hprpair : pr = ((blocks.map Prod.fst).flatten, (blocks.map Prod.snd).flatten) :=
    Prod.ext h1 h2
  refine ⟨blocks,
    hf.imp (fun sc b hsb => ⟨hsb, scenarioBlock_some_inv hsb⟩), ?_, hc1, ?_, ?_, ?_, ?_, ?_⟩
  · rw [Ame_Option_Price, hpr, Option.map_some', hprpair]
  · simpa only [assembleColumns, List.length_map] using hc2
  · simpa only [assembleColumns, List.length_map] using hc2
  · simpa only [assembleColumns, List.length_map] using hc2
  · simpa only [assembleColumns, List.length_map] using hc3
  · simpa only [assembleColumns, List.length_map] using hc3

/-! ## A concrete complete run of the scenario runner -/

lemma sqrt_nine : Real.sqrt 9 = 3 := by
  rw [show (9:ℝ) = 3 ^ 2 by norm_num, Real.sqrt_sq (by norm_num : (0:ℝ) ≤ 3)]

lemma roots_inf_call_example :
    roots_inf_call 0 1 1 = some (((-1 : ℝ) : ℂ), ((2 : ℝ) : ℂ)) := by
  rw [roots_inf_call, if_neg (by norm_num : ¬(1:ℝ) = 0),
    if_pos (by norm_num : (0:ℝ) < 1)]
  rw [show (2 * 0 / (1:ℝ) ^ 2 - 1) = -1 by norm_num,
    show (-(2 * 1 / (1:ℝ) ^ 2)) = -2 by norm_num]
  rw [quadPair_of_nonneg (by norm_num : (0:ℝ) ≤ (-1) ^ 2 - 4 * (-2))]
  rw [if_pos (by norm_num : (-1:ℝ) ≤ 0)]
  rw [show ((-1:ℝ)) ^ 2 - 4 * (-2) = 9 by norm_num, sqrt_nine]
  norm_num

lemma scenarioBlock_example :
    (scenarioBlock 1 0 (-1) [(1/3 : ℝ)] (1, 1, 1)).isSome := by
  obtain ⟨q1, q2, hroots⟩ :=
    @roots_valid_real 0 1 1 1 (by norm_num) (by norm_num) (by norm_num)
  simp only [scenarioBlock, roots_inf_call_example, Option.some_bind,
    toRealIfReal_ofReal, hroots, Critical_Call_Price, Critical_Put_Price,
    critCallLoop_one_of_neg_strike (show (-1:ℝ) < 0 by norm_num),
    critPutLoop_one_of_neg_strike (show (-1:ℝ) < 0 by norm_num),
    Option.isSome_some]

lemma run_example_isSome :
    (Ame_Option_Price 1 [((1:ℝ), (1:ℝ), (1:ℝ))] 0 (-1) [(1/3 : ℝ)]).isSome := by
  rw [Ame_Option_Price]
  obtain ⟨blk, hblk⟩ := Option.isSome_iff_exists.mp scenarioBlock_example
  simp only [gatherRows, hblk]
  rfl

lemma run_example_spot_col :
    Option.map (fun cols => cols.1)
        (Ame_Option_Price 1 [((1:ℝ), (1:ℝ), (1:ℝ))] 0 (-1) [(1/3 : ℝ)])
      = some [(1/3 : ℝ)] := by
  obtain ⟨cols, hcols⟩ := Option.isSome_iff_exists.mp run_example_isSome
  have h := hcols
  rw [Ame_Option_Price] at h
  obtain ⟨pr, hpr, hc⟩ := Option.map_eq_some'.mp h
  obtain ⟨blocks, hf, h1, h2⟩ := gatherRows_some_inv _ _ hpr
  obtain ⟨hc1, -, -⟩ := blocks_cols hf
  rw [hcols, Option.map_some']
  have hval : cols.1 = [(1/3 : ℝ)] := by
    rw [← hc]
    show pr.1.map (fun r => r.1) = [(1/3 : ℝ)]
    rw [h1, hc1]
    simp
  rw [hval]

/-- Witness for C8: the structural description of the completed run with one
scenario (T = 1, r = 1, sigma = 1), carry 0, strike -1 and single spot 1/3. -/
theorem c8_witness :
    ∃ blocks : List (List (ℝ × ℝ × Option ℝ) × List (ℝ × ℝ)),
      List.Forall₂ (fun sc b => scenarioBlock 1 0 (-1) [(1/3 : ℝ)] sc = some b ∧
          ∃ lq cc cp,
            b.1 = [(1/3 : ℝ)].map
              (fun dS => American_Call dS lq cc (-1) 0 sc.2.2 sc.1 sc.2.1) ∧
            b.2 = [(1/3 : ℝ)].map
              (fun dS => American_Put dS lq cp (-1) 0 sc.2.2 sc.1 sc.2.1))
        [((1:ℝ), (1:ℝ), (1:ℝ))] blocks ∧
      Ame_Option_Price 1 [((1:ℝ), (1:ℝ), (1:ℝ))] 0 (-1) [(1/3 : ℝ)]
        = some (assembleColumns
            ((blocks.map Prod.fst).flatten, (blocks.map Prod.snd).flatten)) ∧
      (assembleColumns ((blocks.map Prod.fst).flatten,
          (blocks.map Prod.snd).flatten)).1
        = ([((1:ℝ), (1:ℝ), (1:ℝ))].map fun _ => [(1/3 : ℝ)]).flatten ∧
      (assembleColumns ((blocks.map Prod.fst).flatten,
          (blocks.map Prod.snd).flatten)).1.length
        = [((1:ℝ), (1:ℝ), (1:ℝ))].length * [(1/3 : ℝ)].length ∧
      (assembleColumns ((blocks.map Prod.fst).flatten,
          (blocks.map Prod.snd).flatten)).2.1.length
        = [((1:ℝ), (1:ℝ), (1:ℝ))].length * [(1/3 : ℝ)].length ∧
      (assembleColumns ((blocks.map Prod.fst).flatten,
          (blocks.map Prod.snd).flatten)).2.2.1.length
        = [((1:ℝ), (1:ℝ), (1:ℝ))].length * [(1/3 : ℝ)].length ∧
      (assembleColumns ((blocks.map Prod.fst).flatten,
          (blocks.map Prod.snd).flatten)).2.2.2.1.length
        = [((1:ℝ), (1:ℝ), (1:ℝ))].length * [(1/3 : ℝ)].length ∧
      (assembleColumns ((blocks.map Prod.fst).flatten,
          (blocks.map Prod.snd).flatten)).2.2.2.2.length
        = [((1:ℝ), (1:ℝ), (1:ℝ))].length * [(1/3 : ℝ)].length :=
  c8_runner_structure 1 [((1:ℝ), (1:ℝ), (1:ℝ))] 0 (-1) [(1/3 : ℝ)] run_example_isSome

/-- C8 counterexample: the spot field is not rounded to 2 decimal places: in
the completed run with single spot 1/3 the emitted spot column is [1/3]
unchanged, whereas rounding to 2 decimals would give 0.33, which differs from
1/3 -- so not every numeric field of a row is rounded. -/
theorem c8_counterexample :
    Option.map (fun cols => cols.1)
        (Ame_Option_Price 1 [((1:ℝ), (1:ℝ), (1:ℝ))] 0 (-1) [(1/3 : ℝ)])
      = some [(1/3 : ℝ)] ∧ round2 (1/3 : ℝ) ≠ (1/3 : ℝ) := by
  refine ⟨run_example_spot_col, ?_⟩
  have h1 : round ((100:ℝ) * (1/3)) = 33 := by
    rw [round_eq]
    rw [show ((100:ℝ) * (1/3) + 1/2) = 203/6 by norm_num]
    rw [Int.floor_eq_iff]
    constructor <;> norm_num
  rw [round2, h1]
  norm_num

end
